import Mathlib

/-!
Verification of the trending-footballers dashboard.

Shallow embedding of the TypeScript sources: JS numbers are modelled as
rationals, JS arrays as Lean lists, JS objects and dictionaries as Lean
structures and association lists, fallible file reads as `Except`.
The main subjects are the Sparkline moving-average smoother in
app/page.tsx, the rendering state machine of the TrendingFootballers
component, the getCountryCode resolver, and the CSV GET route.
-/

namespace TF

/-- Window constant of the smoother (`i < 12`, `data.slice(i - 12, i)`). -/
def W : Nat := 12

/-- Stride constant of the smoother (`i % 6 === 0`). -/
def S : Nat := 6

/-- `data.slice(i - 12, i).reduce((sum, v) => sum + v, 0) / 12` from the
Sparkline body: the trailing-window average used at index `i`. -/
def windowAvg (data : List ℚ) (i : Nat) : ℚ :=
  (((data.drop (i - 12)).take 12).foldl (fun sum v => sum + v) 0) / 12

/-- One step of the `reduce` callback in Sparkline: given the accumulator
and the current index, return the next accumulator. The element value is
unused by the callback (it reads `data` through `slice`), so only the index
is passed. -/
def smoothStep (data : List ℚ) (acc : List ℚ) (i : Nat) : List ℚ :=
  if i < 12 then acc
  else if i % 6 = 0 then acc ++ [windowAvg data i]
  else acc

/-- The `smoothData` constant of Sparkline (app/page.tsx lines 76-84):
`data.reduce((acc, val, i) => ..., [])`, folding `smoothStep` over the
indices `0, 1, ..., data.length - 1`. -/
def smoothData (data : List ℚ) : List ℚ :=
  (List.range data.length).foldl (smoothStep data) []

/-- The emission condition of the smoother at index `i`. -/
def emitAt (i : Nat) : Bool :=
  decide (12 ≤ i ∧ i % 6 = 0)

theorem smoothStep_eq (data acc : List ℚ) (i : Nat) :
    smoothStep data acc i =
      if emitAt i then acc ++ [windowAvg data i] else acc := by
  unfold smoothStep emitAt
  by_cases h1 : i < 12
  · simp [h1, Nat.not_le.mpr h1]
  · by_cases h2 : i % 6 = 0 <;> simp [h1, h2, Nat.not_lt.mp h1]

theorem foldl_smoothStep (data : List ℚ) (l : List Nat) (acc : List ℚ) :
    l.foldl (smoothStep data) acc =
      acc ++ (l.filter emitAt).map (windowAvg data) := by
  induction l generalizing acc with
  | nil => simp
  | cons i t ih =>
      rw [List.foldl_cons, ih, smoothStep_eq]
      by_cases h : emitAt i <;> simp [h]

/-- Characterization of the smoother: the output is the window average
taken at exactly the indices `i < n` with `12 ≤ i` and `i % 6 = 0`,
in increasing order of `i`. -/
theorem smoothData_eq (data : List ℚ) :
    smoothData data =
      ((List.range data.length).filter emitAt).map (windowAvg data) := by
  unfold smoothData
  rw [foldl_smoothStep]
  simp

/-- Arithmetic mean of a list of rationals (sum divided by length). -/
def mean (xs : List ℚ) : ℚ :=
  xs.sum / xs.length

/-- Reference definition written from the words of the specification, to be
compared with `smoothData`: for each index `i` from `W` to `n - 1` in
increasing order, the arithmetic mean of `values[i-W .. i-1]` (the `W`
samples immediately preceding `i`, exclusive of `i` itself) is appended to
the output exactly when `i mod S == 0`. -/
def specSmooth (values : List ℚ) : List ℚ :=
  ((List.range values.length).filter (fun i => decide (W ≤ i ∧ i % S = 0))).map
    (fun i => mean ((values.take i).drop (i - W)))

theorem window_slice (values : List ℚ) (i : Nat) (h12 : 12 ≤ i) :
    (values.take i).drop (i - 12) = (values.drop (i - 12)).take 12 := by
  rw [List.drop_take]
  congr 1
  omega

theorem window_length (values : List ℚ) (i : Nat) (h12 : 12 ≤ i)
    (hn : i < values.length) :
    ((values.drop (i - 12)).take 12).length = 12 := by
  rw [List.length_take, List.length_drop]
  omega

theorem windowAvg_eq_mean (values : List ℚ) (i : Nat) (h12 : 12 ≤ i)
    (hn : i < values.length) :
    windowAvg values i = mean ((values.take i).drop (i - 12)) := by
  rw [window_slice values i h12]
  unfold windowAvg mean
  rw [window_length values i h12 hn, List.sum_eq_foldl]
  norm_num

/-- Claim C1: for every input sequence and the fixed parameters W = 12 and
S = 6, the Sparkline smoother `smoothData` equals the reference definition
`specSmooth`: for each index `i` from `W` to `n - 1` in increasing order,
the mean of `values[i-W .. i-1]` is appended exactly when `i mod S == 0`,
and no other elements appear in the output. -/
theorem smoother_matches_spec (values : List ℚ) :
    smoothData values = specSmooth values := by
  rw [smoothData_eq]
  unfold specSmooth
  have hfilter :
      (fun i => decide (W ≤ i ∧ i % S = 0)) = emitAt := by
    funext i
    simp [W, S, emitAt]
  rw [hfilter]
  apply List.map_congr_left
  intro i hi
  simp only [List.mem_filter, List.mem_range, emitAt, decide_eq_true_eq] at hi
  simpa [W] using windowAvg_eq_mean values i hi.2.1 hi.1

theorem emitCount_succ (n : Nat) :
    ((List.range (n + 1)).filter emitAt).length =
      ((List.range n).filter emitAt).length +
        (if 12 ≤ n ∧ n % 6 = 0 then 1 else 0) := by
  rw [List.range_succ, List.filter_append, List.length_append]
  congr 1
  by_cases h : 12 ≤ n ∧ n % 6 = 0
  · simp [emitAt, h]
  · simp [emitAt, h]

/-- Closed form of the number of emitted indices below `n`. -/
theorem emitCount_eq (n : Nat) :
    ((List.range n).filter emitAt).length =
      if n ≤ 12 then 0 else (n - 1) / 6 - 1 := by
  induction n with
  | zero => simp
  | succ n ih =>
      rw [emitCount_succ, ih]
      by_cases h : 12 ≤ n ∧ n % 6 = 0
      · rw [if_pos h]
        split_ifs <;> omega
      · rw [if_neg h]
        split_ifs <;> omega

/-- Closed form of the length of the smoothed output. -/
theorem smoothData_length (data : List ℚ) :
    (smoothData data).length =
      if data.length ≤ 12 then 0 else (data.length - 1) / 6 - 1 := by
  rw [smoothData_eq, List.length_map, emitCount_eq]

/-- Claim C2: for every input of length `n` (W = 12, S = 6), the output of
the smoother has length at most `(n - 12) / 6 + 1`; it is empty whenever
`n ≤ 12`; the output length never exceeds the input length, and is strictly
smaller once `n > 12`. -/
theorem smoother_length_bounds (data : List ℚ) :
    (smoothData data).length ≤ (data.length - 12) / 6 + 1 ∧
    (data.length ≤ 12 → smoothData data = []) ∧
    (smoothData data).length ≤ data.length ∧
    (12 < data.length → (smoothData data).length < data.length) := by
  have h := smoothData_length data
  refine ⟨?_, ?_, ?_, ?_⟩
  · rw [h]; split_ifs <;> omega
  · intro hle
    refine List.length_eq_zero.mp ?_
    rw [h, if_pos hle]
  · rw [h]; split_ifs <;> omega
  · intro hlt
    rw [h]; split_ifs <;> omega

/-- Witness for claim C2 at concrete inputs: a 5-sample input yields an
empty output, and a 13-sample input yields a strictly shorter output. -/
theorem smoother_length_bounds_witness :
    smoothData (List.replicate 5 (0 : ℚ)) = [] ∧
    (smoothData (List.replicate 13 (0 : ℚ))).length < 13 := by
  constructor
  · exact (smoother_length_bounds (List.replicate 5 (0 : ℚ))).2.1 (by simp)
  · have h := (smoother_length_bounds (List.replicate 13 (0 : ℚ))).2.2.2 (by simp)
    simpa using h

/-- The concrete input sequence 1, 2, ..., 24 used by the specification. -/
def ex24 : List ℚ :=
  [1, 2, 3, 4, 5, 6, 7, 8, 9, 10, 11, 12,
   13, 14, 15, 16, 17, 18, 19, 20, 21, 22, 23, 24]

/-- The indices at which the smoother emits a value for an input of
length `n`. -/
def emittedIndices (n : Nat) : List Nat :=
  (List.range n).filter emitAt

/-- Claim C3 as stated is false: on the input 1, 2, ..., 24 the smoother
does not emit exactly one value — it emits two (at indices 12 and 18). -/
theorem smoother_ex24_not_one_value :
    ¬ (smoothData ex24).length = 1 := by
  have h := smoothData_length ex24
  have hlen : ex24.length = 24 := by decide
  rw [hlen] at h
  norm_num at h
  omega

/-- Claim C3 amended: on the input 1, 2, ..., 24 the smoother emits exactly
two values, the window means at indices 12 and 18 (13/2 and 25/2), so the
emitted index set for n = 24 is exactly 12 and 18; for inputs of length 36
the emitted index set is exactly 12, 18, 24 and 30 (the boundary index
i = n itself is never included, since the fold stops at i = n - 1). -/
theorem smoother_ex24_emissions :
    smoothData ex24 = [13 / 2, 25 / 2] ∧
    emittedIndices 24 = [12, 18] ∧
    emittedIndices 36 = [12, 18, 24, 30] ∧
    (∀ v : List ℚ, v.length = 36 →
      smoothData v = (emittedIndices 36).map (windowAvg v)) := by
  have h24 : emittedIndices 24 = [12, 18] := by decide
  have h36 : emittedIndices 36 = [12, 18, 24, 30] := by decide
  refine ⟨?_, h24, h36, ?_⟩
  · have h := smoothData_eq ex24
    have hlen : ex24.length = 24 := by decide
    rw [hlen] at h
    have hfilter : (List.range 24).filter emitAt = [12, 18] := by decide
    rw [hfilter] at h
    rw [h]
    have h12 : windowAvg ex24 12 = 13 / 2 := by norm_num [windowAvg, ex24]
    have h18 : windowAvg ex24 18 = 25 / 2 := by norm_num [windowAvg, ex24]
    rw [List.map_cons, List.map_cons, List.map_nil, h12, h18]
  · intro v hv
    rw [smoothData_eq, hv]
    rfl

/-- Witness for the amended claim C3 at a concrete input of length 36. -/
theorem smoother_ex24_emissions_witness :
    smoothData (List.replicate 36 (0 : ℚ)) =
      (emittedIndices 36).map (windowAvg (List.replicate 36 (0 : ℚ))) := by
  exact smoother_ex24_emissions.2.2.2 (List.replicate 36 (0 : ℚ)) (by simp)

/-- Claim C4: the smoother is deterministic — it is a pure function of the
input sequence, so two invocations on the same input produce identical
outputs; there is no hidden state, randomness or clock dependency in the
embedding. -/
theorem smoother_deterministic (v w : List ℚ) (h : v = w) :
    smoothData v = smoothData w := by
  rw [h]

/-- Witness for claim C4 at the concrete input 1, 2, ..., 24. -/
theorem smoother_deterministic_witness :
    smoothData ex24 = smoothData ex24 :=
  smoother_deterministic ex24 ex24 rfl

/-- The state threaded through the Sparkline reduce: the input array `data`
read by `slice` and the accumulator array `acc` being built. -/
structure SparkState where
  data : List ℚ
  acc : List ℚ

/-- One step of the reduce callback acting on the whole state: it reads
`s.data` through `slice` and may push onto `s.acc`; it never writes to
`s.data`. -/
def sparkStep (s : SparkState) (i : Nat) : SparkState :=
  if i < 12 then s
  else
    let windowSum := ((s.data.drop (i - 12)).take 12).foldl (fun sum v => sum + v) 0
    let avg := windowSum / 12
    if i % 6 = 0 then { s with acc := s.acc ++ [avg] } else s

/-- Running the whole Sparkline smoothing pass with the state threaded
explicitly, starting from the input array and a fresh empty accumulator. -/
def runSmooth (data : List ℚ) : SparkState :=
  (List.range data.length).foldl sparkStep { data := data, acc := [] }

theorem sparkStep_eq (d a : List ℚ) (i : Nat) :
    sparkStep { data := d, acc := a } i = { data := d, acc := smoothStep d a i } := by
  unfold sparkStep smoothStep windowAvg
  by_cases h1 : i < 12
  · simp [h1]
  · by_cases h2 : i % 6 = 0 <;> simp [h1, h2]

theorem foldl_sparkStep (d : List ℚ) (l : List Nat) (a : List ℚ) :
    l.foldl sparkStep { data := d, acc := a } =
      { data := d, acc := l.foldl (smoothStep d) a } := by
  induction l generalizing a with
  | nil => rfl
  | cons i t ih => rw [List.foldl_cons, sparkStep_eq, ih, List.foldl_cons]

/-- Claim C5: the smoother has no side effects — after the run, the input
array component of the threaded state is unchanged, and the accumulator,
which started as a fresh empty array, holds exactly the smoothed output.
The embedding is a pure function, so no I/O can occur. -/
theorem smoother_no_side_effects (data : List ℚ) :
    (runSmooth data).data = data ∧ (runSmooth data).acc = smoothData data := by
  unfold runSmooth smoothData
  rw [foldl_sparkStep]
  exact ⟨rfl, rfl⟩

/-- A point of the Sparkline chart series: the object literal built by
`smoothData.map((value) => ({ value }))` in app/page.tsx line 86. -/
structure ChartPoint where
  value : ℚ
deriving DecidableEq

/-- The data series handed to the LineChart of the Sparkline component. -/
def chartData (data : List ℚ) : List ChartPoint :=
  (smoothData data).map (fun value => { value := value })

/-- A point of the detail-view chart in PlayerDetails.tsx: a raw value
paired with the date at the same index (possibly undefined when the dates
array is shorter). -/
structure DetailPoint where
  value : ℚ
  date : Option String
deriving DecidableEq

/-- Stable sorted insertion: the new element is placed after every element
`b` with `le b a`, so elements that compare equal keep their original
relative order. -/
def insertSorted {α : Type} (le : α → α → Bool) : List α → α → List α
  | [], a => [a]
  | b :: bs, a => if le b a then b :: insertSorted le bs a else a :: b :: bs

/-- Model of the stable ascending JS array sort with a consistent
comparator: left-to-right insertion into a sorted accumulator. -/
def stableSort {α : Type} (le : α → α → Bool) (l : List α) : List α :=
  l.foldl (insertSorted le) []

/-- The data series built for the detail-view LineChart in
PlayerDetails.tsx lines 127-133: the raw values mapped to points carrying
the date at the same index, sorted by timestamp (the comparator
subtracts the epoch times of the two dates; `getTime` models the epoch
time of a possibly-undefined date string), then `slice(12)`. -/
def detailChartData (getTime : Option String → Int) (values : List ℚ)
    (dates : List String) : List DetailPoint :=
  (stableSort (fun a b => getTime a.date ≤ getTime b.date)
    (values.enum.map (fun p => { value := p.2, date := dates.get? p.1 }))).drop 12

theorem insertSorted_length {α : Type} (le : α → α → Bool) (l : List α) (a : α) :
    (insertSorted le l a).length = l.length + 1 := by
  induction l with
  | nil => rfl
  | cons b bs ih =>
      unfold insertSorted
      by_cases h : le b a <;> simp [h, ih]

theorem foldl_insertSorted_length {α : Type} (le : α → α → Bool)
    (l acc : List α) :
    (l.foldl (insertSorted le) acc).length = acc.length + l.length := by
  induction l generalizing acc with
  | nil => simp
  | cons b bs ih =>
      rw [List.foldl_cons, ih, insertSorted_length, List.length_cons]
      omega

theorem stableSort_length {α : Type} (le : α → α → Bool) (l : List α) :
    (stableSort le l).length = l.length := by
  unfold stableSort
  rw [foldl_insertSorted_length]
  simp

theorem detailChartData_length (getTime : Option String → Int)
    (values : List ℚ) (dates : List String) :
    (detailChartData getTime values dates).length = values.length - 12 := by
  unfold detailChartData
  rw [List.length_drop, stableSort_length, List.length_map, List.enum_length]

/-- Claim C6 is false as stated for the detail-view chart: on the raw
series 1, 2, ..., 24 the series handed to the detail-view line chart has
12 points while the smoother output has 2, so the chart data does not have
the same number of points as the smoother output there. -/
theorem detail_chart_count_mismatch :
    (detailChartData (fun _ => 0) ex24 (List.replicate 24 "t")).length ≠
      (smoothData ex24).length := by
  rw [detailChartData_length, smoothData_length]
  decide

/-- Claim C6 amended: the Sparkline hands the smoothed sequence to the
line-drawing primitive exactly — same number of points, same order, same
values, with no re-aggregation or re-ordering; the detail-view chart, by
contrast, does not consume the smoother output at all: it draws the raw
series sorted by timestamp with its first 12 points dropped, so its point
count is the raw length minus 12. -/
theorem sparkline_series_preserved :
    (∀ v : List ℚ, (chartData v).map (fun p => p.value) = smoothData v ∧
      (chartData v).length = (smoothData v).length) ∧
    (∀ (getTime : Option String → Int) (v : List ℚ) (d : List String),
      (detailChartData getTime v d).length = v.length - 12) := by
  constructor
  · intro v
    constructor
    · unfold chartData
      rw [List.map_map]
      exact List.map_id (smoothData v)
    · unfold chartData
      rw [List.length_map]
  · intro getTime v d
    exact detailChartData_length getTime v d

/-- One parsed CSV row of the trending-footballers route: destructured
fields are undefined (`none`) when the row has fewer columns; the score is
`none` when parseFloat yields NaN. -/
structure CsvRow where
  name : Option String
  searchInterest : Option ℚ
  full_name : Option String
  nationality : Option String
  club : Option String
  club_logo : Option String
  player_photo : Option String
deriving DecidableEq

/-- The split-and-strip of one CSV line in route.ts line 20-21: split on
commas, then drop every double-quote character from each field. -/
def splitFields (line : String) : List String :=
  (line.splitOn ",").map (fun field => field.replace "\"" "")

/-- The object built from one CSV line in route.ts lines 19-32. `pf`
models `parseFloat`, with `none` standing for NaN. -/
def rowOfLine (pf : String → Option ℚ) (line : String) : CsvRow :=
  let fields := splitFields line
  { name := fields.get? 0
    searchInterest := (fields.get? 1).bind pf
    full_name := fields.get? 2
    nationality := fields.get? 3
    club := fields.get? 4
    club_logo := fields.get? 5
    player_photo := fields.get? 6 }

/-- The data rows of the CSV in route.ts lines 16-18: split the content on
newlines, drop the header row, keep only lines that are non-blank after
trimming. -/
def dataLines (csvContent : String) : List String :=
  ((csvContent.splitOn "\n").drop 1).filter (fun line => line.trim != "")

/-- The footballers array of route.ts lines 17-32. -/
def parseCsv (pf : String → Option ℚ) (csvContent : String) : List CsvRow :=
  (dataLines csvContent).map (rowOfLine pf)

/-- Body of the JSON response of the trending-footballers route. -/
inductive ApiBody where
  | error (message : String)
  | payload (footballers : List CsvRow) (lastUpdate : String)
deriving DecidableEq

/-- An HTTP response of the route: a status code and a JSON body. -/
structure ApiResponse where
  status : Nat
  body : ApiBody
deriving DecidableEq

/-- The GET handler of app/api/trending-footballers/route.ts: both file
reads sit inside one try block, so a failure of either lands in the catch,
which answers 500 with a JSON error body; otherwise the CSV is parsed and
answered with the default 200 status. `pf` models `parseFloat` and `fmt`
models the `new Date(...).toLocaleString()` formatting of the timestamp. -/
def GET (pf : String → Option ℚ) (fmt : String → String)
    (csvRead updateRead : Except String String) : ApiResponse :=
  match csvRead with
  | .error _ => { status := 500, body := .error "Failed to fetch trending footballers" }
  | .ok csvContent =>
    match updateRead with
    | .error _ => { status := 500, body := .error "Failed to fetch trending footballers" }
    | .ok lastUpdate =>
      { status := 200, body := .payload (parseCsv pf csvContent) (fmt lastUpdate) }

/-- Claim C7: if reading either backing file fails, the route answers an
error-message JSON body with status 500; otherwise it answers 200 with one
footballer entry per non-blank CSV data row (header skipped), each row
split on commas into a name, a numerically parsed trend score, and the
optional extended player fields. -/
theorem get_route_behavior :
    (∀ pf fmt e updateRead, GET pf fmt (.error e) updateRead =
      { status := 500, body := .error "Failed to fetch trending footballers" }) ∧
    (∀ pf fmt csvContent e, GET pf fmt (.ok csvContent) (.error e) =
      { status := 500, body := .error "Failed to fetch trending footballers" }) ∧
    (∀ pf fmt csvContent lastUpdate,
      GET pf fmt (.ok csvContent) (.ok lastUpdate) =
        { status := 200,
          body := .payload ((dataLines csvContent).map (rowOfLine pf))
            (fmt lastUpdate) }) ∧
    (∀ pf csvContent, (parseCsv pf csvContent).length = (dataLines csvContent).length) ∧
    (∀ pf line,
      (rowOfLine pf line).name = (splitFields line).get? 0 ∧
      (rowOfLine pf line).searchInterest = ((splitFields line).get? 1).bind pf ∧
      (rowOfLine pf line).full_name = (splitFields line).get? 2 ∧
      (rowOfLine pf line).nationality = (splitFields line).get? 3 ∧
      (rowOfLine pf line).club = (splitFields line).get? 4 ∧
      (rowOfLine pf line).club_logo = (splitFields line).get? 5 ∧
      (rowOfLine pf line).player_photo = (splitFields line).get? 6) := by
  refine ⟨fun pf fmt e u => rfl, fun pf fmt c e => rfl, fun pf fmt c u => rfl,
    fun pf c => ?_, fun pf line => ?_⟩
  · unfold parseCsv
    rw [List.length_map]
  · exact ⟨rfl, rfl, rfl, rfl, rfl, rfl, rfl⟩

/-- The optional interest-over-time series of a player entry. -/
structure InterestOverTime where
  values : List ℚ
  dates : List String
deriving DecidableEq

/-- The player identity of a ranking entry. -/
structure Player where
  id : Nat
  name : String
  firstname : String
  lastname : String
  nationality : String
  photo : String
deriving DecidableEq

/-- The team of the first statistics entry of a ranking entry. -/
structure Team where
  id : Nat
  name : String
  logo : String
deriving DecidableEq

/-- One entry of the ranking artifact, after the Footballer interface in
app/page.tsx: the statistics array is modelled by its first element, the
only one the component reads. -/
structure Footballer where
  rank : Nat
  trending_score : ℚ
  player : Player
  team : Team
  interest_over_time : Option InterestOverTime
deriving DecidableEq

/-- The parts of one rendered ranking list item that depend on the data:
the rank badge, the player name, and the optional sparkline series. The
sparkline block is guarded by `footballer.interest_over_time &&` in
app/page.tsx lines 370-379, so it is present exactly when the optional
series is. -/
structure RenderedItem where
  rankLabel : Nat
  nameLabel : String
  sparkline : Option (List ChartPoint)
deriving DecidableEq

/-- Rendering of one ranking list item (app/page.tsx lines 292-384). -/
def renderListItem (f : Footballer) : RenderedItem :=
  { rankLabel := f.rank
    nameLabel := f.player.name
    sparkline := f.interest_over_time.map (fun iot => chartData iot.values) }

/-- Claim C8: a player entry without the optional interest-over-time field
is rendered as a list item with no sparkline element, and the rest of the
item (rank, name) is rendered normally — the absence is nothing-to-draw,
not an error, and the total rendering function cannot throw. -/
theorem missing_series_renders_no_sparkline (f : Footballer)
    (h : f.interest_over_time = none) :
    (renderListItem f).sparkline = none ∧
    (renderListItem f).rankLabel = f.rank ∧
    (renderListItem f).nameLabel = f.player.name := by
  unfold renderListItem
  rw [h]
  exact ⟨rfl, rfl, rfl⟩

/-- A rank-1 player entry with no interest-over-time series, after the
end-to-end scenario of the specification. -/
def rank1NoSeries : Footballer :=
  { rank := 1
    trending_score := 0
    player := { id := 7, name := "Player One", firstname := "Player",
                lastname := "One", nationality := "England", photo := "p.png" }
    team := { id := 3, name := "Club", logo := "c.png" }
    interest_over_time := none }

/-- Witness for claim C8 at the concrete rank-1 entry of the scenario. -/
theorem missing_series_renders_no_sparkline_witness :
    (renderListItem rank1NoSeries).sparkline = none ∧
    (renderListItem rank1NoSeries).rankLabel = rank1NoSeries.rank ∧
    (renderListItem rank1NoSeries).nameLabel = rank1NoSeries.player.name :=
  missing_series_renders_no_sparkline rank1NoSeries rfl

/-- The four screens the TrendingFootballers component can return. -/
inductive AppView where
  | loadingView
  | errorView (message : String) (hasRetryButton : Bool)
  | noDataView (message : String)
  | rankingsView (items : List RenderedItem)
deriving DecidableEq

/-- The early-return cascade of TrendingFootballers (app/page.tsx lines
212-251): the loading spinner first, then the error panel with its Try
Again reload button, then the No data available panel when the list is
empty, and otherwise the rankings list. -/
def renderApp (loading : Bool) (error : Option String)
    (footballers : List Footballer) : AppView :=
  if loading then .loadingView
  else
    match error with
    | some msg => .errorView msg true
    | none =>
      if footballers.length = 0 then .noDataView "No data available"
      else .rankingsView (footballers.map renderListItem)

/-- Claim C9: with loading finished and no fetch error, an empty ranking
list renders the explicit No data available state, which is distinct from
the loading view and from every error view; the error panel is produced
only when an error is present, never for the mere empty-list case. -/
theorem empty_list_shows_no_data (footballers : List Footballer)
    (hempty : footballers.length = 0) :
    renderApp false none footballers = .noDataView "No data available" ∧
    renderApp false none footballers ≠ .loadingView ∧
    (∀ msg retry, renderApp false none footballers ≠ .errorView msg retry) ∧
    (∀ loading fs msg retry, renderApp loading none fs ≠ .errorView msg retry) ∧
    (∀ loading err fs msg retry,
      renderApp loading err fs = .errorView msg retry → err = some msg) := by
  have hmain : renderApp false none footballers = .noDataView "No data available" := by
    unfold renderApp
    rw [if_neg (by simp), if_pos hempty]
  refine ⟨hmain, ?_, ?_, ?_, ?_⟩
  · rw [hmain]; intro hcontra; cases hcontra
  · intro msg retry
    rw [hmain]; intro hcontra; cases hcontra
  · intro loading fs msg retry
    unfold renderApp
    cases loading with
    | true => simp
    | false =>
        simp only [Bool.false_eq_true, if_false]
        split <;> simp
  · intro loading err fs msg retry h
    unfold renderApp at h
    cases loading with
    | true => simp at h
    | false =>
        simp only [Bool.false_eq_true, if_false] at h
        cases err with
        | some m =>
            cases h
            rfl
        | none =>
            by_cases hfs : fs.length = 0 <;> simp [hfs] at h

/-- Witness for claim C9 at the concrete empty list. -/
theorem empty_list_shows_no_data_witness :
    renderApp false none ([] : List Footballer) = .noDataView "No data available" :=
  (empty_list_shows_no_data [] rfl).1

/-- Model of the JS `toLowerCase()` call: character-wise lowercasing. -/
def jsToLower (s : String) : String :=
  ⟨s.data.map Char.toLower⟩

/-- The hardcoded special-cases dictionary of getCountryCode
(app/page.tsx lines 44-58). -/
def specialCases : List (String × String) :=
  [("côte d\x27ivoire", "ci"),
   ("ivory coast", "ci"),
   ("cote d\x27ivoire", "ci"),
   ("türkiye", "tr"),
   ("turkey", "tr"),
   ("usa", "us"),
   ("united states", "us"),
   ("england", "gb-eng"),
   ("republic of ireland", "ie"),
   ("korea republic", "kr"),
   ("south korea", "kr"),
   ("dr congo", "cd"),
   ("congo", "cg")]

/-- JS object lookup on an association list: the value of the last
occurrence of the key, since a later entry overwrites an earlier one. -/
def jsLookup (entries : List (String × String)) (key : String) : Option String :=
  ((entries.filter (fun p => p.1 == key)).getLast?).map (fun p => p.2)

/-- The JS expression `value || fallback` on a possibly-undefined string:
an undefined or empty value is falsy and yields the fallback. -/
def jsOrElse (v : Option String) (fallback : String) : String :=
  match v with
  | some s => if s = "" then fallback else s
  | none => fallback

/-- The reverse dictionary built in getCountryCode (lines 66-70) from the
country-codes table of (code, name) entries: `acc[name.toLowerCase()] =
code`, a later entry overwriting an earlier one with the same lowercased
name. -/
def countryCodesReverse (table : List (String × String)) (key : String) :
    Option String :=
  ((table.filter (fun p => jsToLower p.2 == key)).getLast?).map (fun p => p.1)

/-- getCountryCode from app/page.tsx lines 40-73, parameterized by the
country-codes table (the JSON import is data outside the sources). The
input is lowercased; a truthy special-case hit returns immediately; a
falsy special-case value or miss falls through to the reverse table
lookup, whose result is returned when truthy, else the lowercased input
itself. Total by construction. -/
def getCountryCode (table : List (String × String)) (nationality : String) :
    String :=
  let normalizedNationality := jsToLower nationality
  match jsLookup specialCases normalizedNationality with
  | some code =>
      if code = "" then
        jsOrElse (countryCodesReverse table normalizedNationality)
          normalizedNationality
      else code
  | none =>
      jsOrElse (countryCodesReverse table normalizedNationality)
        normalizedNationality

theorem mem_of_getLast?_eq_some {α : Type} {l : List α} {x : α}
    (h : l.getLast? = some x) : x ∈ l := by
  obtain ⟨hne, heq⟩ := List.mem_getLast?_eq_getLast (Option.mem_def.mpr h)
  rw [heq]
  exact List.getLast_mem hne

theorem specialCases_values_nonempty : ∀ p ∈ specialCases, p.2 ≠ "" := by
  decide

theorem jsLookup_specialCases_nonempty (key code : String)
    (h : jsLookup specialCases key = some code) : code ≠ "" := by
  unfold jsLookup at h
  obtain ⟨p, hp, hval⟩ := Option.map_eq_some'.mp h
  have hmem : p ∈ specialCases := List.mem_of_mem_filter (mem_of_getLast?_eq_some hp)
  rw [← hval]
  exact specialCases_values_nonempty p hmem

/-- Claim C10: getCountryCode is a total function with a three-stage
resolution order — the input is lowercased; a hit in the hardcoded
special-cases dictionary returns the special-case code, taking precedence
over the general table; otherwise, when some entry of the country-codes
table has a name whose lowercase form equals the lowercased input, that
entry's code (a nonempty country code) is returned; otherwise the
lowercased input itself is returned as the fallback, never an error or an
empty string. -/
theorem country_code_resolution :
    (∀ table nationality code,
      jsLookup specialCases (jsToLower nationality) = some code →
      getCountryCode table nationality = code) ∧
    (∀ table nationality code,
      jsLookup specialCases (jsToLower nationality) = none →
      countryCodesReverse table (jsToLower nationality) = some code →
      code ≠ "" →
      getCountryCode table nationality = code) ∧
    (∀ table key code, countryCodesReverse table key = some code →
      ∃ p ∈ table, jsToLower p.2 = key ∧ p.1 = code) ∧
    (∀ table nationality,
      jsLookup specialCases (jsToLower nationality) = none →
      countryCodesReverse table (jsToLower nationality) = none →
      getCountryCode table nationality = jsToLower nationality) := by
  refine ⟨?_, ?_, ?_, ?_⟩
  · intro table nationality code h
    have hne := jsLookup_specialCases_nonempty _ _ h
    simp only [getCountryCode]
    rw [h]
    exact if_neg hne
  · intro table nationality code h1 h2 h3
    simp only [getCountryCode]
    rw [h1, h2]
    unfold jsOrElse
    exact if_neg h3
  · intro table key code h
    unfold countryCodesReverse at h
    obtain ⟨p, hp, hval⟩ := Option.map_eq_some'.mp h
    have hmem := mem_of_getLast?_eq_some hp
    rw [List.mem_filter] at hmem
    exact ⟨p, hmem.1, eq_of_beq hmem.2, hval⟩
  · intro table nationality h1 h2
    simp only [getCountryCode]
    rw [h1, h2]
    rfl

/-- A small concrete country-codes table of (code, name) entries. -/
def exTable : List (String × String) :=
  [("de", "Germany"), ("fr", "France")]

/-- Witness for claim C10: one concrete input per resolution stage —
a special-case hit, a table hit, and the lowercased-input fallback. -/
theorem country_code_resolution_witness :
    getCountryCode exTable "Turkey" = "tr" ∧
    getCountryCode exTable "Germany" = "de" ∧
    getCountryCode exTable "Atlantis" = "atlantis" := by
  refine ⟨country_code_resolution.1 exTable "Turkey" "tr" (by decide),
    country_code_resolution.2.1 exTable "Germany" "de" (by decide) (by decide)
      (by decide), ?_⟩
  have h := country_code_resolution.2.2.2 exTable "Atlantis" (by decide) (by decide)
  rw [h]
  decide

end TF
